import Mathlib

/-!
Shallow embedding of `src/iwlistparse.py` (a parser for `iwlist scan` /
`iwconfig` output) and proofs about its claims.

Modelling conventions:
* Python strings are `String`; a list of output lines is `List String`.
* Python `None` used as a value is `Option.none`; a function that can raise
  an exception returns `Option` (with `none` for the raise).
* Python string builtins (`strip`, `split`, `replace`, `find`-style search)
  are modelled character-by-character so the kernel can evaluate them;
  whitespace is the ASCII whitespace Python strips (wider Unicode
  whitespace is outside the modelled fragment).
* Python binary floats are idealised as exact rationals; `round` is
  Python 3's round-half-to-even.  `float()` literal parsing is modelled on
  the nonnegative decimal integer numerals that `Quality=` fractions carry.
-/

namespace Iwlist

/-- ASCII whitespace, as `str.strip()` / `str.split()` treat it. -/
def pyIsSpace (c : Char) : Bool :=
  c = ' ' || c = '\t' || c = '\n' || c = '\r' || c = '\x0B' || c = '\x0C'

/-- Python `s.strip()`: drop leading and trailing whitespace. -/
def pyStrip (s : String) : String :=
  ⟨((s.data.dropWhile pyIsSpace).reverse.dropWhile pyIsSpace).reverse⟩

/-- One pass of Python `s.split()` (no separator): whitespace runs divide
the string, empty pieces are dropped; `acc` holds the current token
reversed. -/
def splitWsAux : List Char → List Char → List (List Char)
  | [], acc => if acc.isEmpty then [] else [acc.reverse]
  | c :: cs, acc =>
    if pyIsSpace c then
      if acc.isEmpty then splitWsAux cs [] else acc.reverse :: splitWsAux cs []
    else splitWsAux cs (c :: acc)

/-- Python `s.split()` with no argument. -/
def pySplitWs (s : String) : List String :=
  (splitWsAux s.data []).map (fun l => ⟨l⟩)

/-- Index of the first occurrence of the non-empty pattern `pat`,
Python's `s.find(pat)` (`none` for not found). -/
def findSub (pat : List Char) : List Char → Option ℕ
  | [] => none
  | c :: cs => if pat.isPrefixOf (c :: cs) then some 0 else (findSub pat cs).map (· + 1)

/-- Python `s.find(pat)` for a non-empty `pat`. -/
def pyFind (pat s : String) : Option ℕ :=
  findSub pat.data s.data

/-- Python `s.split(pat)` for a non-empty `pat`, by repeatedly splitting at
the first occurrence.  Each step consumes at least one character, so the
fuel `s.length + 1` always suffices. -/
def splitOnFuel (pat : List Char) : ℕ → List Char → List (List Char)
  | 0, l => [l]
  | fuel + 1, l =>
    match findSub pat l with
    | none => [l]
    | some i => l.take i :: splitOnFuel pat fuel (l.drop (i + pat.length))

/-- Python `s.split(pat)` for a non-empty separator `pat`. -/
def pySplitOn (s pat : String) : List String :=
  (splitOnFuel pat.data (s.data.length + 1) s.data).map (fun l => ⟨l⟩)

/-- Python `s.replace(pat, repl)` for a non-empty `pat`: replace each
occurrence left to right, non-overlapping.  Fuel as in `splitOnFuel`. -/
def replaceFuel (pat repl : List Char) : ℕ → List Char → List Char
  | 0, l => l
  | fuel + 1, l =>
    match findSub pat l with
    | none => l
    | some i => l.take i ++ repl ++ replaceFuel pat repl fuel (l.drop (i + pat.length))

/-- Python `s.replace(pat, repl)` for a non-empty `pat`. -/
def pyReplace (s pat repl : String) : String :=
  ⟨replaceFuel pat.data repl.data (s.data.length + 1) s.data⟩

/-- Python `float(s)`, modelled on the nonnegative decimal integer
numerals that appear in `Quality=` fractions; other literal shapes are
outside the modelled fragment and map to `none` (a `ValueError`). -/
def pyToNat (s : String) : Option ℕ :=
  if s.data ≠ [] ∧ s.data.all Char.isDigit then
    some (s.data.foldl (fun n c => n * 10 + (c.toNat - 48)) 0)
  else none

/-- Python `s[-n:]`: the last at-most-`n` characters. -/
def pyTakeRight (s : String) (n : ℕ) : String :=
  ⟨s.data.drop (s.data.length - n)⟩

/-- Lexicographic strict comparison of character lists by code point:
Python's `<` on strings. -/
def pyLt : List Char → List Char → Bool
  | [], [] => false
  | [], _ :: _ => true
  | _ :: _, [] => false
  | a :: as, b :: bs => if a < b then true else if b < a then false else pyLt as bs

/-- Python `s < t` for strings. -/
def pyStrLt (s t : String) : Bool :=
  pyLt s.data t.data

/-- `match(line, keyword)` (iwlistparse.py lines 97-104): if
`line[:len(keyword)] == keyword` return `line[len(keyword):]`, else `None`. -/
def match' (line keyword : String) : Option String :=
  if line.take keyword.length = keyword then some (line.drop keyword.length) else none

/-- `matching_line(lines, keyword)` (lines 88-94): remainder of the first
line of `lines` that matches `keyword`, else `None`. -/
def matching_line (lines : List String) (keyword : String) : Option String :=
  lines.findSome? (fun line => match' line keyword)

/-- `get_name(cell)` (lines 25-26): `matching_line(cell, 'ESSID:')[1:-1]`.
`none` models the `TypeError` raised when no line matches (`None[1:-1]`). -/
def get_name (cell : List String) : Option String :=
  (matching_line cell "ESSID:").map (fun s => ⟨(s.data.drop 1).dropLast⟩)

/-- Python 3 `round` of the exact value `(100 * a) / d` (the quality
percentage), as integer arithmetic: floor `t / d`, remainder `t % d`,
round to nearest with ties to even. -/
def pyRoundFrac (a d : ℕ) : ℕ :=
  let t := 100 * a
  let f := t / d
  let r := t % d
  if 2 * r < d then f
  else if d < 2 * r then f + 1
  else if f % 2 = 0 then f else f + 1

/-- Python 3 `round` to an integer of an exact rational: round half to
even (the specification-level counterpart of `pyRoundFrac`). -/
def pyRound (q : ℚ) : ℤ :=
  let f := ⌊q⌋
  if q - f < 1/2 then f
  else if 1/2 < q - f then f + 1
  else if f % 2 = 0 then f else f + 1

/-- Python `'{:3}'.format(n)` for a natural number: decimal digits,
right-justified with spaces to a minimum width of 3. -/
def format3 (n : ℕ) : String :=
  let s := toString n
  if s.length < 3 then (⟨List.replicate (3 - s.length) ' '⟩ : String) ++ s else s

/-- `get_quality(cell)` (lines 29-32):
`quality = matching_line(cell, 'Quality=').split()[0].split('/')` then
`'{:3} %'.format(int(round(float(quality[0]) / float(quality[1]) * 100)))`.
`none` models each possible exception (no matching line, empty split,
missing `/` part, non-numeral, `ZeroDivisionError`). -/
def get_quality (cell : List String) : Option String := do
  let s ← matching_line cell "Quality="
  let tok ← (pySplitWs s).head?
  let parts := pySplitOn tok "/"
  let na ← parts.head?
  let nd ← parts[1]?
  let a ← pyToNat na
  let d ← pyToNat nd
  if d = 0 then none
  else some (format3 (pyRoundFrac a d) ++ " %")

/-- `get_channel(cell)` (lines 35-36): the raw `matching_line` result;
the Python value may be `None`. -/
def get_channel (cell : List String) : Option String :=
  matching_line cell "Channel:"

/-- `get_signal_level(cell)` (lines 39-42):
`matching_line(cell, 'Quality=').split('Signal level=')[1]`; `none` models
the exceptions (no matching line, marker absent). -/
def get_signal_level (cell : List String) : Option String := do
  let s ← matching_line cell "Quality="
  (pySplitOn s "Signal level=")[1]?

/-- `get_address(cell)` (lines 61-62): the raw `matching_line` result;
the Python value may be `None`. -/
def get_address (cell : List String) : Option String :=
  matching_line cell "Address: "

/-- The nested matches of the `get_encryption` loop (lines 51-54): the
`WPA Version ` prefix-match of the `IE:` prefix-match of a line. -/
def wpaOf (line : String) : Option String :=
  (match' line "IE:").bind (fun m => match' m "WPA Version ")

/-- The loop body of `get_encryption` (lines 50-55): a line whose `IE:`
remainder itself begins with `WPA Version ` overwrites the accumulator. -/
def encStep (enc : String) (line : String) : String :=
  match wpaOf line with
  | some wpa => "WPA v." ++ wpa
  | none => enc

/-- `get_encryption(cell)` (lines 45-58). Total: every Python path returns
a string. -/
def get_encryption (cell : List String) : String :=
  if matching_line cell "Encryption key:" = some "off" then "Open"
  else
    let enc := cell.foldl encStep ""
    if enc = "" then "WEP" else enc

/-- The (Python-value of the) last `IE:` line whose remainder begins with
`WPA Version `, i.e. the winner of the overwrite loop in `get_encryption`. -/
def lastWpa (cell : List String) : Option String :=
  (cell.filterMap wpaOf).getLast?

/-- A successfully parsed cell (the dictionary `parse_cell` builds).
`channel`/`address` hold the raw `matching_line` results, whose Python
value is `None` (`Option.none` here) when no line matched; the other four
rules either produce a string or raise. -/
structure Record where
  name : String
  quality : String
  channel : Option String
  encryption : String
  address : Option String
  signal : String
deriving DecidableEq, Repr

/-- `COLUMNS` (line 14). -/
def COLUMNS : List String :=
  ["Name", "Address", "Quality", "Signal", "Channel", "Encryption"]

/-- The key/value pairs of the dictionary built by `parse_cell`
(lines 107-113), in `RULES` insertion order; values are Python values
(`none` is Python `None`). -/
def recordFields (r : Record) : List (String × Option String) :=
  [("Name", some r.name), ("Quality", some r.quality), ("Channel", r.channel),
   ("Encryption", some r.encryption), ("Address", r.address), ("Signal", some r.signal)]

/-- `parse_cell(cell)` (lines 107-113): apply every rule in `RULES`
(`Name`, `Quality`, `Channel`, `Encryption`, `Address`, `Signal`);
`none` models an exception escaping from any rule; the result order of
the rules does not affect which records are produced. -/
def parse_cell (cell : List String) : Option Record :=
  (get_name cell).bind fun n =>
  (get_quality cell).bind fun q =>
  (get_signal_level cell).bind fun s =>
  some ⟨n, q, get_channel cell, get_encryption cell, get_address cell, s⟩

/-- `sort_cells(cells)` (lines 80-83): stable sort on the `Quality` string,
descending (`reverse=True`): a record may precede another iff its Quality
string is not smaller in Python string order, realised as a stable merge
sort. -/
def sort_cells (cells : List Record) : List Record :=
  cells.mergeSort (fun a b => !(pyStrLt a.quality b.quality))

/-- `cells[-1].append(x)` on a nonempty list of cells. -/
def appendToLast (cells : List (List String)) (x : String) : List (List String) :=
  cells.dropLast ++ [(cells.getLastD []) ++ [x]]

/-- The segmentation loop of `iwlist_parse` (lines 163-171): a line whose
prefix is `Cell ` starts a new cell seeded with the stripped last ≤27
characters of its remainder; any other line is stripped and appended to
the current cell. -/
def segLoop : List (List String) → List String → List (List String)
  | cells, [] => cells
  | cells, line :: rest =>
    match match' line "Cell " with
    | some cl => segLoop (cells ++ [[pyStrip (pyTakeRight cl 27)]]) rest
    | none => segLoop (appendToLast cells (pyStrip line)) rest

/-- The cell segmenter: the loop of lines 163-171 started from the
placeholder `[[]]`, followed by `cells = cells[1:]` (line 173). -/
def segmentCells (lines : List String) : List (List String) :=
  (segLoop [[]] lines).drop 1

/-- The parsing loop of `iwlist_parse` (lines 175-176): parse each cell in
order; the first exception aborts everything. -/
def parse_cells : List (List String) → Option (List Record)
  | [] => some []
  | c :: cs =>
    (parse_cell c).bind fun r =>
    (parse_cells cs).bind fun rs =>
    some (r :: rs)

/-- `iwlist_parse(lines)` (lines 162-180): segment, parse every cell, sort. -/
def iwlist_parse (lines : List String) : Option (List Record) :=
  (parse_cells (segmentCells lines)).map (fun parsed => sort_cells parsed)

/-- The text Python extracts when `ESSID:` occurs at index `i` of the
stripped first line (lines 188-189): `line[i+6:].replace('"', '')`. -/
def essidText (line : String) (i : ℕ) : String :=
  pyReplace ⟨line.data.drop (i + 6)⟩ "\"" ""

/-- `iwconfig_parse(lines)` (lines 183-193).  `none` models the
`IndexError` that `lines[0]` raises on an empty list; `line.count > 0`
and `line.index` are the one search `pyFind`. -/
def iwconfig_parse (lines : List String) : Option String :=
  match lines with
  | [] => none
  | l0 :: _ =>
    match pyFind "ESSID:" (pyStrip l0) with
    | some i =>
      if essidText (pyStrip l0) i ≠ "off/any" then some (essidText (pyStrip l0) i)
      else some "*"
    | none => some "*"

/-- `ParseResult` (lines 17-19). -/
structure ParseResult where
  currently_connected : String
  headers : Bool
  access_points : List Record
  error : Option String
deriving DecidableEq, Repr

/-- `iwlistparse(interface, switch, headers)` (lines 196-213).  The
`interface` argument is only forwarded to the collaborators, so the model
takes the collaborators' outputs (lines and error) directly; `none` models
an exception escaping from either parse. -/
def iwlistparse (switch : String) (headers : Bool)
    (iwconfigOut iwlistOut : List String × Option String) : Option ParseResult :=
  (if switch = "connected" then
    (iwconfig_parse iwconfigOut.1).map (fun cc => (cc, iwconfigOut.2))
  else some ("*", none)).bind fun ccErr =>
  (if switch = "all" then
    (iwlist_parse iwlistOut.1).map (fun aps => (aps, iwlistOut.2))
  else some (([] : List Record), ccErr.2)).map fun apErr =>
  ⟨ccErr.1, headers, apErr.1, apErr.2⟩

/-- A line that does not start a new cell. -/
def notDelim (line : String) : Bool :=
  (match' line "Cell ").isNone

/-- Reference form of the segmenter: skip lines before the first
delimiter; each delimiter line opens a cell whose first entry is the
stripped last ≤27 characters of the delimiter remainder, followed by the
stripped lines up to (exclusive) the next delimiter. -/
def segRef : List String → List (List String)
  | [] => []
  | l :: ls =>
    match match' l "Cell " with
    | none => segRef ls
    | some r =>
      (pyStrip (pyTakeRight r 27) :: (ls.takeWhile notDelim).map pyStrip)
        :: segRef (ls.dropWhile notDelim)
termination_by l => l.length
decreasing_by
  · simp only [List.length_cons]
    omega
  · simp only [List.length_cons]
    exact Nat.lt_succ_of_le (List.Sublist.length_le (List.dropWhile_sublist _))

/-- The Quality string `get_quality` formats for an integer percentage
`p`: width-3 right-justified digits and `" %"`. -/
def fmtQ (p : ℕ) : String :=
  format3 p ++ " %"

/-! ## Helper lemmas -/

/-- The `get_encryption` loop computes the last `WPA Version ` match when
one exists, and otherwise leaves the accumulator unchanged. -/
theorem foldl_encStep (cell : List String) (enc : String) :
    cell.foldl encStep enc =
      match lastWpa cell with
      | some v => "WPA v." ++ v
      | none => enc := by
  induction cell generalizing enc with
  | nil => simp [lastWpa]
  | cons l rest ih =>
    rw [List.foldl_cons, ih]
    unfold lastWpa
    rw [List.filterMap_cons]
    cases h : wpaOf l with
    | none => simp [encStep, h]
    | some w =>
      simp only [encStep, h]
      cases h2 : rest.filterMap wpaOf with
      | nil => simp [lastWpa, h2]
      | cons w' ws =>
        simp only [lastWpa, h2, List.getLast?_cons_cons]
        cases h3 : (w' :: ws).getLast? with
        | none => simp at h3
        | some v => rfl

/-- A string extended on the right of `"WPA v."` is never empty. -/
theorem wpa_ne_empty (v : String) : "WPA v." ++ v ≠ "" := by
  intro heq
  have hlen := congrArg String.length heq
  simp [String.length_append] at hlen
  exact absurd hlen.1 (by decide)

/-! ## C1: Encryption extractor and WPA version lines -/

/-- C1, counterexample: with `Encryption key:on` and the (realistic) line
`IE: IEEE 802.11i/WPA2 Version 1`, the code yields `WEP`, not `WPA v.1` —
the `WPA Version ` match is a prefix match on the `IE:` remainder, which
here starts with a space, not a substring search. -/
theorem c1_counterexample :
    get_encryption ["Encryption key:on", "IE: IEEE 802.11i/WPA2 Version 1"] = "WEP" ∧
    ¬ get_encryption ["Encryption key:on", "IE: IEEE 802.11i/WPA2 Version 1"] = "WPA v.1" := by
  decide

/-- C1 (amended): for every cell whose `Encryption key:` value is not
`off`, the extractor returns `"WPA v." ++ v` where `v` comes from the last
line whose `IE:` remainder itself begins with `WPA Version ` (a prefix
match, not a substring search), and `WEP` when no such line exists. -/
theorem c1_encryption_prefix_scan (cell : List String)
    (h : matching_line cell "Encryption key:" ≠ some "off") :
    get_encryption cell =
      match lastWpa cell with
      | some v => "WPA v." ++ v
      | none => "WEP" := by
  unfold get_encryption
  rw [if_neg h, foldl_encStep]
  cases hl : lastWpa cell with
  | none => simp
  | some v => simp [wpa_ne_empty v]

/-- C1 witness: a cell with `Encryption key:on` and an `IE:`-line whose
remainder begins with `WPA Version ` yields `WPA v.1`. -/
theorem c1_encryption_prefix_scan_witness :
    matching_line ["Encryption key:on", "IE:WPA Version 1"] "Encryption key:" ≠ some "off" ∧
    get_encryption ["Encryption key:on", "IE:WPA Version 1"] = "WPA v.1" :=
  ⟨by decide, (c1_encryption_prefix_scan ["Encryption key:on", "IE:WPA Version 1"]
    (by decide)).trans (by decide)⟩

/-! ## C9: Encryption extractor totality and range -/

/-- C9, counterexample: a cell with no `Encryption key:` line at all but
with an `IE:WPA Version 1` line yields `WPA v.1`, not `WEP`. -/
theorem c9_counterexample :
    matching_line ["IE:WPA Version 1"] "Encryption key:" = none ∧
    get_encryption ["IE:WPA Version 1"] = "WPA v.1" ∧
    ¬ get_encryption ["IE:WPA Version 1"] = "WEP" := by
  decide

/-- C9 (amended): `get_encryption` is total and always returns `Open`,
`WEP`, or a string beginning with `WPA v.`; a cell with no
`Encryption key:` line and no `WPA Version ` IE line yields `WEP`. -/
theorem c9_encryption_range (cell : List String) :
    (get_encryption cell = "Open" ∨ get_encryption cell = "WEP" ∨
      ∃ v, get_encryption cell = "WPA v." ++ v) ∧
    (matching_line cell "Encryption key:" = none → lastWpa cell = none →
      get_encryption cell = "WEP") := by
  constructor
  · by_cases h : matching_line cell "Encryption key:" = some "off"
    · left
      simp [get_encryption, h]
    · unfold get_encryption
      rw [if_neg h, foldl_encStep]
      cases hl : lastWpa cell with
      | none => right; left; simp
      | some v =>
        right; right
        exact ⟨v, by simp [wpa_ne_empty v]⟩
  · intro h1 h2
    have h : matching_line cell "Encryption key:" ≠ some "off" := by simp [h1]
    unfold get_encryption
    rw [if_neg h, foldl_encStep, h2]
    simp

/-- C9 witness: the empty cell has no `Encryption key:` line and no WPA IE
line, and yields `WEP`. -/
theorem c9_encryption_range_witness :
    get_encryption ([] : List String) = "WEP" :=
  (c9_encryption_range []).2 (by decide) (by decide)

/-! ## C2: parse_cell record shape -/

/-- C2, counterexample: a cell with no `ESSID:` line makes `parse_cell`
raise (`None[1:-1]`) instead of producing a record, and in a successful
parse a missing `Channel:`/`Address: ` line yields the Python `None`
value, not the empty string. -/
theorem c2_counterexample :
    parse_cell [] = none ∧
    parse_cell ["ESSID:\"net\"", "Quality=70/70  Signal level=-43 dBm", "Encryption key:off"] =
      some ⟨"net", "100 %", none, "Open", none, "-43 dBm"⟩ := by
  constructor
  · rfl
  · decide

/-- C2 (amended): whenever `parse_cell` does return a record, the record
has an entry for every configured column, and the `Channel`/`Address`
entries are the raw `matching_line` results (Python `None`, not `""`,
when no line matched). -/
theorem c2_record_fields (cell : List String) (r : Record)
    (h : parse_cell cell = some r) :
    (∀ k ∈ COLUMNS, ((recordFields r).lookup k).isSome) ∧
    r.channel = matching_line cell "Channel:" ∧
    r.address = matching_line cell "Address: " := by
  simp only [parse_cell, Option.bind_eq_some, Option.some.injEq] at h
  obtain ⟨n, hn, q, hq, s, hs, hr⟩ := h
  subst hr
  refine ⟨?_, rfl, rfl⟩
  intro k hk
  simp only [COLUMNS] at hk
  fin_cases hk <;> rfl

/-- C2 witness: the theorem applied to a concrete successfully parsed
cell (one with no `Channel:` and no `Address: ` line). -/
theorem c2_record_fields_witness :
    (∀ k ∈ COLUMNS,
      ((recordFields ⟨"net", "100 %", none, "Open", none, "-43 dBm"⟩).lookup k).isSome) ∧
    (⟨"net", "100 %", none, "Open", none, "-43 dBm"⟩ : Record).channel =
      matching_line ["ESSID:\"net\"", "Quality=70/70  Signal level=-43 dBm",
        "Encryption key:off"] "Channel:" ∧
    (⟨"net", "100 %", none, "Open", none, "-43 dBm"⟩ : Record).address =
      matching_line ["ESSID:\"net\"", "Quality=70/70  Signal level=-43 dBm",
        "Encryption key:off"] "Address: " :=
  c2_record_fields _ _ (by decide)

/-! ## C3: the orchestrator -/

/-- If every cell parses, the parsing loop succeeds. -/
theorem parse_cells_isSome {cells : List (List String)}
    (h : ∀ c ∈ cells, (parse_cell c).isSome) : (parse_cells cells).isSome := by
  induction cells with
  | nil => simp [parse_cells]
  | cons c cs ih =>
    obtain ⟨r, hr⟩ := Option.isSome_iff_exists.mp (h c (by simp))
    obtain ⟨rs, hrs⟩ := Option.isSome_iff_exists.mp (ih (fun d hd => h d (by simp [hd])))
    simp [parse_cells, hr, hrs]

/-- `iwconfig_parse` returns a value on every non-empty input. -/
theorem iwconfig_parse_isSome (l : String) (ls : List String) :
    (iwconfig_parse (l :: ls)).isSome := by
  cases h : pyFind "ESSID:" (pyStrip l) with
  | none => simp [iwconfig_parse, h]
  | some i =>
    by_cases h2 : essidText (pyStrip l) i = "off/any" <;> simp [iwconfig_parse, h, h2]

/-- C3, counterexample: with collaborator output containing a cell that
lacks the `ESSID:` marker, the orchestrator raises (returns no
`ParseResult` structure) instead of always returning one. -/
theorem c3_counterexample :
    iwlistparse "all" true ([], none) (["Cell 01 - x"], none) = none := by
  decide

/-- C3 (amended): the orchestrator returns a result structure for every
unrecognised switch; for `all` it returns one provided every segmented
cell parses successfully, and for `connected` provided the status output
is non-empty — otherwise the exception of the failing extractor (or of
`lines[0]` on empty status output) propagates. -/
theorem c3_orchestrator (headers : Bool) (co lo : List String × Option String) :
    (∀ sw : String, sw ≠ "connected" → sw ≠ "all" →
      iwlistparse sw headers co lo = some ⟨"*", headers, [], none⟩) ∧
    ((∀ c ∈ segmentCells lo.1, (parse_cell c).isSome) →
      (iwlistparse "all" headers co lo).isSome) ∧
    (co.1 ≠ [] → (iwlistparse "connected" headers co lo).isSome) := by
  refine ⟨?_, ?_, ?_⟩
  · intro sw h1 h2
    simp [iwlistparse, h1, h2]
  · intro h
    obtain ⟨rs, hrs⟩ := Option.isSome_iff_exists.mp (parse_cells_isSome h)
    have hne : ¬ ("all" : String) = "connected" := by decide
    simp [iwlistparse, iwlist_parse, hrs, hne]
  · intro h
    obtain ⟨lines, err⟩ := co
    cases lines with
    | nil => exact absurd rfl h
    | cons l ls =>
      obtain ⟨v, hv⟩ := Option.isSome_iff_exists.mp (iwconfig_parse_isSome l ls)
      have hne : ¬ ("connected" : String) = "all" := by decide
      simp [iwlistparse, hv, hne]

/-- C3 witness: the theorem applied at concrete collaborator outputs. -/
theorem c3_orchestrator_witness :
    iwlistparse "neither" false ([], none) ([], none) = some ⟨"*", false, [], none⟩ ∧
    (iwlistparse "all" false ([], none) ([], none)).isSome ∧
    (iwlistparse "connected" false ([""], none) ([], none)).isSome :=
  ⟨(c3_orchestrator false ([], none) ([], none)).1 "neither" (by decide) (by decide),
   (c3_orchestrator false ([], none) ([], none)).2.1 (by decide),
   (c3_orchestrator false ([""], none) ([], none)).2.2 (by decide)⟩

/-! ## C4: the connection status parser -/

/-- C4, counterexample: on the empty list the code raises `IndexError`
(`lines[0]`) instead of returning the disconnected sentinel. -/
theorem c4_counterexample :
    iwconfig_parse [] = none ∧ ¬ iwconfig_parse [] = some "*" := by
  decide

/-- C4 (amended): the parser inspects only the first line; for non-empty
input it always returns normally, with `*` when the first line has no
`ESSID:` marker or when the extracted ESSID text is `off/any`. -/
theorem c4_status (l : String) (ls ls' : List String) :
    iwconfig_parse (l :: ls) = iwconfig_parse (l :: ls') ∧
    (iwconfig_parse (l :: ls)).isSome ∧
    (pyFind "ESSID:" (pyStrip l) = none → iwconfig_parse (l :: ls) = some "*") ∧
    (∀ i, pyFind "ESSID:" (pyStrip l) = some i → essidText (pyStrip l) i = "off/any" →
      iwconfig_parse (l :: ls) = some "*") := by
  refine ⟨rfl, iwconfig_parse_isSome l ls, ?_, ?_⟩
  · intro h
    simp [iwconfig_parse, h]
  · intro i h1 h2
    simp [iwconfig_parse, h1, h2]

/-- C4 witness: a first line carrying `ESSID:off/any` and a first line
with no marker (even when a later line has one) both give `*`. -/
theorem c4_status_witness :
    iwconfig_parse ["wlan0  ESSID:off/any"] = some "*" ∧
    iwconfig_parse ["no-marker", "ESSID:\"x\""] = some "*" :=
  ⟨(c4_status "wlan0  ESSID:off/any" [] []).2.2.2 7 (by decide) (by decide),
   (c4_status "no-marker" ["ESSID:\"x\""] []).2.2.1 (by decide)⟩

/-! ## C5: the cell segmenter -/

/-- `cells[-1].append` distributes over a prefix of untouched cells. -/
theorem appendToLast_append (cs cur : List (List String)) (x : String) (h : cur ≠ []) :
    appendToLast (cs ++ cur) x = cs ++ appendToLast cur x := by
  unfold appendToLast
  rw [List.dropLast_append_of_ne_nil _ h, List.append_assoc]
  have hsome : cur.getLast?.isSome := by
    rw [List.getLast?_isSome]
    exact h
  obtain ⟨y, hy⟩ := Option.isSome_iff_exists.mp hsome
  simp [List.getLastD_eq_getLast?, List.getLast?_append, hy]

/-- `appendToLast` never empties the cell list. -/
theorem appendToLast_ne_nil (cur : List (List String)) (x : String) :
    appendToLast cur x ≠ [] := by
  unfold appendToLast
  simp

set_option maxHeartbeats 1600000 in
/-- The segmentation loop only ever touches the last cell, so finished
cells pass through it unchanged. -/
theorem segLoop_append (lines : List String) (cs cur : List (List String)) (h : cur ≠ []) :
    segLoop (cs ++ cur) lines = cs ++ segLoop cur lines := by
  induction lines generalizing cur with
  | nil => rfl
  | cons l ls ih =>
    cases hm : match' l "Cell " with
    | some cl =>
      rw [segLoop, segLoop, hm]
      show segLoop (cs ++ cur ++ [[pyStrip (pyTakeRight cl 27)]]) ls =
        cs ++ segLoop (cur ++ [[pyStrip (pyTakeRight cl 27)]]) ls
      rw [List.append_assoc, ih (cur ++ [[pyStrip (pyTakeRight cl 27)]]) (by simp)]
    | none =>
      rw [segLoop, segLoop, hm]
      show segLoop (appendToLast (cs ++ cur) (pyStrip l)) ls =
        cs ++ segLoop (appendToLast cur (pyStrip l)) ls
      rw [appendToLast_append cs cur _ h, ih _ (appendToLast_ne_nil cur _)]

set_option maxHeartbeats 1600000 in
/-- The segmentation loop started on one open cell: the open cell absorbs
the stripped lines up to the next delimiter, and the rest is `segRef`. -/
theorem segLoop_single (lines : List String) (c : List String) :
    segLoop [c] lines =
      (c ++ (lines.takeWhile notDelim).map pyStrip) :: segRef (lines.dropWhile notDelim) := by
  induction lines generalizing c with
  | nil => simp [segLoop, segRef]
  | cons l ls ih =>
    cases hm : match' l "Cell " with
    | none =>
      have hnd : notDelim l = true := by simp [notDelim, hm]
      rw [segLoop, hm]
      show segLoop (appendToLast [c] (pyStrip l)) ls = _
      have happ : appendToLast [c] (pyStrip l) = [c ++ [pyStrip l]] := by
        simp [appendToLast]
      rw [happ, ih (c ++ [pyStrip l])]
      simp [hnd, List.append_assoc]
    | some r =>
      have hnd : notDelim l = false := by simp [notDelim, hm]
      rw [segLoop, hm]
      show segLoop ([c] ++ [[pyStrip (pyTakeRight r 27)]]) ls = _
      rw [segLoop_append ls [c] [[pyStrip (pyTakeRight r 27)]] (by simp),
        ih [pyStrip (pyTakeRight r 27)]]
      have hR : segRef (l :: ls) =
          (pyStrip (pyTakeRight r 27) :: (ls.takeWhile notDelim).map pyStrip)
            :: segRef (ls.dropWhile notDelim) := by
        rw [segRef, hm]
      rw [List.takeWhile_cons_of_neg (by simp [hnd]),
        List.dropWhile_cons_of_neg (by simp [hnd]), hR]
      simp

/-- `segRef` ignores leading non-delimiter lines. -/
theorem segRef_dropWhile (lines : List String) :
    segRef (lines.dropWhile notDelim) = segRef lines := by
  induction lines with
  | nil => rfl
  | cons l ls ih =>
    cases hm : match' l "Cell " with
    | none =>
      have hnd : notDelim l = true := by simp [notDelim, hm]
      have hR : segRef (l :: ls) = segRef ls := by rw [segRef, hm]
      rw [List.dropWhile_cons_of_pos hnd, ih, hR]
    | some r =>
      have hnd : notDelim l = false := by simp [notDelim, hm]
      rw [List.dropWhile_cons_of_neg (by simp [hnd])]

/-- The segmenter equals its reference form. -/
theorem segmentCells_eq_segRef (lines : List String) :
    segmentCells lines = segRef lines := by
  unfold segmentCells
  rw [segLoop_single lines [], List.drop_one, List.tail_cons, segRef_dropWhile]

/-- `segRef` produces exactly one cell per delimiter line. -/
theorem segRef_length (lines : List String) :
    (segRef lines).length = lines.countP (fun l => (match' l "Cell ").isSome) := by
  induction lines using segRef.induct with
  | case1 => simp [segRef]
  | case2 l ls hm ih =>
    have hR : segRef (l :: ls) = segRef ls := by rw [segRef, hm]
    rw [hR, List.countP_cons, ih]
    simp [hm]
  | case3 l ls r hm ih =>
    have hR : segRef (l :: ls) =
        (pyStrip (pyTakeRight r 27) :: (ls.takeWhile notDelim).map pyStrip)
          :: segRef (ls.dropWhile notDelim) := by
      rw [segRef, hm]
    rw [hR]
    simp only [List.length_cons, List.countP_cons, hm, Option.isSome_some, if_pos]
    have hsplit : ls.countP (fun l => (match' l "Cell ").isSome) =
        (ls.takeWhile notDelim).countP (fun l => (match' l "Cell ").isSome) +
        (ls.dropWhile notDelim).countP (fun l => (match' l "Cell ").isSome) := by
      rw [← List.countP_append, List.takeWhile_append_dropWhile]
    have hzero : (ls.takeWhile notDelim).countP (fun l => (match' l "Cell ").isSome) = 0 := by
      rw [List.countP_eq_zero]
      intro a ha
      have := List.mem_takeWhile_imp ha
      simp [notDelim] at this
      simp [this]
    rw [ih]
    omega

/-- C5, counterexample: the delimiter-derived first line of a cell is also
stripped of surrounding whitespace, so the cell holds the *stripped* last
≤27 characters of the remainder, not the raw characters. -/
theorem c5_counterexample :
    segmentCells ["Cell  x  "] = [["x"]] ∧ segmentCells ["Cell  x  "] ≠ [[" x  "]] := by
  decide

/-- C5 (amended): the segmenter produces exactly one cell per `Cell `
delimiter line, in source order; each cell is the stripped last ≤27
characters of its delimiter remainder followed by the stripped lines up
to the next delimiter; lines before the first delimiter are discarded,
and inputs without a delimiter (in particular the empty input) produce
`[]` rather than an error. -/
theorem c5_segmenter (lines : List String) :
    segmentCells lines = segRef lines ∧
    (segmentCells lines).length = lines.countP (fun l => (match' l "Cell ").isSome) := by
  refine ⟨segmentCells_eq_segRef lines, ?_⟩
  rw [segmentCells_eq_segRef lines]
  exact segRef_length lines

/-! ## C6: the Quality and Signal extractors -/

/-- The integer rounding in `get_quality` is exactly Python 3's
round-half-to-even of the rational `a / d * 100`. -/
theorem pyRoundFrac_eq (a d : ℕ) (hd : d ≠ 0) :
    (pyRoundFrac a d : ℤ) = pyRound ((a : ℚ) / d * 100) := by
  have hd0 : (0 : ℚ) < (d : ℚ) := by exact_mod_cast Nat.pos_of_ne_zero hd
  have hq : (a : ℚ) / d * 100 = ((100 * a : ℕ) : ℚ) / d := by
    push_cast
    ring
  set t := 100 * a with ht
  have hcast : (t : ℚ) = (d : ℚ) * ((t / d : ℕ) : ℚ) + ((t % d : ℕ) : ℚ) := by
    exact_mod_cast congrArg (fun n : ℕ => (n : ℚ)) (Nat.div_add_mod t d).symm
  have hfloor : ⌊(a : ℚ) / d * 100⌋ = ((t / d : ℕ) : ℤ) := by
    rw [hq, Rat.floor_natCast_div_natCast]
    exact_mod_cast rfl
  have hfract : (a : ℚ) / d * 100 - (((t / d : ℕ) : ℤ) : ℚ) = ((t % d : ℕ) : ℚ) / d := by
    rw [hq]
    rw [Int.cast_natCast, eq_div_iff (ne_of_gt hd0), sub_mul,
      div_mul_cancel₀ _ (ne_of_gt hd0)]
    linear_combination hcast
  have hlt_iff : ∀ k : ℕ, (((k : ℕ) : ℚ) / d < 1 / 2) ↔ 2 * k < d := by
    intro k
    rw [div_lt_div_iff₀ hd0 (by norm_num : (0 : ℚ) < 2), one_mul]
    constructor
    · intro h
      have hk : (k * 2 : ℕ) < d := by exact_mod_cast h
      omega
    · intro h
      have hk : (k * 2 : ℕ) < d := by omega
      exact_mod_cast hk
  have hgt_iff : ∀ k : ℕ, (1 / 2 < ((k : ℕ) : ℚ) / d) ↔ d < 2 * k := by
    intro k
    rw [div_lt_div_iff₀ (by norm_num : (0 : ℚ) < 2) hd0, one_mul]
    constructor
    · intro h
      have hk : d < (k * 2 : ℕ) := by exact_mod_cast h
      omega
    · intro h
      have hk : d < (k * 2 : ℕ) := by omega
      exact_mod_cast hk
  simp only [pyRound, pyRoundFrac]
  rw [← ht, hfloor, hfract]
  by_cases hc1 : 2 * (t % d) < d
  · rw [if_pos hc1, if_pos ((hlt_iff (t % d)).mpr hc1)]
  · rw [if_neg hc1, if_neg (fun h => hc1 ((hlt_iff (t % d)).mp h))]
    by_cases hc2 : d < 2 * (t % d)
    · rw [if_pos hc2, if_pos ((hgt_iff (t % d)).mpr hc2)]
      push_cast
      ring
    · rw [if_neg hc2, if_neg (fun h => hc2 ((hgt_iff (t % d)).mp h))]
      have hev : (((t / d : ℕ) : ℤ) % 2 = 0) ↔ ((t / d) % 2 = 0) := by
        constructor
        · intro h
          omega
        · intro h
          omega
      by_cases hc3 : (t / d) % 2 = 0
      · rw [if_pos hc3, if_pos (hev.mpr hc3)]
      · rw [if_neg hc3, if_neg (fun h => hc3 (hev.mp h))]
        push_cast
        ring

/-- C6 (confirmed): on a cell whose first `Quality=` line carries the
fraction `a/d` (`d ≠ 0`) as its first whitespace token, `get_quality`
returns the width-3 right-justified Python-3 rounding of `a / d * 100`
followed by `" %"`, and `get_signal_level` returns the text of that same
line after `Signal level=`. -/
theorem c6_quality_signal (cell : List String) (rline tok na nd pre sig : String) (a d : ℕ)
    (h1 : matching_line cell "Quality=" = some rline)
    (h2 : (pySplitWs rline).head? = some tok)
    (h3 : pySplitOn tok "/" = [na, nd])
    (h4 : pyToNat na = some a)
    (h5 : pyToNat nd = some d)
    (h6 : d ≠ 0)
    (h7 : pySplitOn rline "Signal level=" = [pre, sig]) :
    get_quality cell = some (format3 (pyRoundFrac a d) ++ " %") ∧
    (pyRoundFrac a d : ℤ) = pyRound ((a : ℚ) / d * 100) ∧
    get_signal_level cell = some sig := by
  refine ⟨?_, pyRoundFrac_eq a d h6, ?_⟩
  · simp [get_quality, h1, h2, h3, h4, h5, h6]
  · simp [get_signal_level, h1, h7]

/-- C6 witness: the spec's example line. -/
theorem c6_quality_signal_witness :
    get_quality ["Quality=70/70  Signal level=-43 dBm"] = some "100 %" ∧
    get_signal_level ["Quality=70/70  Signal level=-43 dBm"] = some "-43 dBm" := by
  have h := c6_quality_signal ["Quality=70/70  Signal level=-43 dBm"]
    "70/70  Signal level=-43 dBm" "70/70" "70" "70" "70/70  " "-43 dBm" 70 70
    (by decide) (by decide) (by decide) (by decide) (by decide) (by decide) (by decide)
  exact ⟨h.1.trans (by decide), h.2.2⟩

/-! ## C7, C8, C10: sorting -/

/-- `pyLt` on a cons pair: either the heads compare, or they are equal and
the tails compare. -/
theorem pyLt_cons_iff (a b : Char) (as bs : List Char) :
    pyLt (a :: as) (b :: bs) = true ↔ a < b ∨ (a = b ∧ pyLt as bs = true) := by
  simp only [pyLt]
  rcases lt_trichotomy a b with h | h | h
  · simp [h]
  · subst h
    simp [lt_irrefl]
  · rw [if_neg (asymm h), if_pos h]
    constructor
    · intro hc
      exact absurd hc (by simp)
    · rintro (hc | ⟨rfl, hc⟩)
      · exact absurd (lt_trans h hc) (lt_irrefl _)
      · exact absurd h (lt_irrefl _)

/-- `pyLt` is irreflexive. -/
theorem pyLt_irrefl : ∀ l : List Char, pyLt l l = false := by
  intro l
  induction l with
  | nil => rfl
  | cons a as ih => simp [pyLt, lt_irrefl, ih]

/-- `pyLt` is asymmetric. -/
theorem pyLt_asymm : ∀ l₁ l₂ : List Char, pyLt l₁ l₂ = true → pyLt l₂ l₁ = false := by
  intro l₁
  induction l₁ with
  | nil =>
    intro l₂ h
    cases l₂ <;> simp_all [pyLt]
  | cons a as ih =>
    intro l₂ h
    cases l₂ with
    | nil => simp [pyLt] at h
    | cons b bs =>
      rw [pyLt_cons_iff] at h
      rw [← Bool.not_eq_true, pyLt_cons_iff]
      rcases h with h | ⟨rfl, h⟩
      · rintro (hba | ⟨rfl, hba⟩)
        · exact absurd (lt_trans h hba) (lt_irrefl _)
        · exact absurd h (lt_irrefl _)
      · rintro (hba | ⟨-, hba⟩)
        · exact absurd hba (lt_irrefl _)
        · rw [ih bs h] at hba
          exact absurd hba (by simp)

/-- `pyLt` is transitive. -/
theorem pyLt_trans : ∀ l₁ l₂ l₃ : List Char,
    pyLt l₁ l₂ = true → pyLt l₂ l₃ = true → pyLt l₁ l₃ = true := by
  intro l₁
  induction l₁ with
  | nil =>
    intro l₂ l₃ h1 h2
    cases l₂ with
    | nil => simp [pyLt] at h1
    | cons b bs =>
      cases l₃ with
      | nil => simp [pyLt] at h2
      | cons c cs => rfl
  | cons a as ih =>
    intro l₂ l₃ h1 h2
    cases l₂ with
    | nil => simp [pyLt] at h1
    | cons b bs =>
      cases l₃ with
      | nil => simp [pyLt] at h2
      | cons c cs =>
        rw [pyLt_cons_iff] at h1 h2 ⊢
        rcases h1 with h1 | ⟨rfl, h1⟩
        · rcases h2 with h2 | ⟨rfl, h2⟩
          · exact Or.inl (lt_trans h1 h2)
          · exact Or.inl h1
        · rcases h2 with h2 | ⟨rfl, h2⟩
          · exact Or.inl h2
          · exact Or.inr ⟨rfl, ih bs cs h1 h2⟩

/-- `pyLt` is trichotomous. -/
theorem pyLt_trichotomy : ∀ l₁ l₂ : List Char,
    pyLt l₁ l₂ = true ∨ l₁ = l₂ ∨ pyLt l₂ l₁ = true := by
  intro l₁
  induction l₁ with
  | nil =>
    intro l₂
    cases l₂ with
    | nil => exact Or.inr (Or.inl rfl)
    | cons b bs => exact Or.inl rfl
  | cons a as ih =>
    intro l₂
    cases l₂ with
    | nil => exact Or.inr (Or.inr rfl)
    | cons b bs =>
      rcases lt_trichotomy a b with h | rfl | h
      · exact Or.inl ((pyLt_cons_iff a b as bs).mpr (Or.inl h))
      · rcases ih bs with h | rfl | h
        · exact Or.inl ((pyLt_cons_iff a a as bs).mpr (Or.inr ⟨rfl, h⟩))
        · exact Or.inr (Or.inl rfl)
        · exact Or.inr (Or.inr ((pyLt_cons_iff a a bs as).mpr (Or.inr ⟨rfl, h⟩)))
      · exact Or.inr (Or.inr ((pyLt_cons_iff b a bs as).mpr (Or.inl h)))

/-- Transitivity of the record comparison used by `sort_cells`. -/
theorem sortLe_trans (a b c : Record)
    (h1 : (!(pyStrLt a.quality b.quality)) = true)
    (h2 : (!(pyStrLt b.quality c.quality)) = true) :
    (!(pyStrLt a.quality c.quality)) = true := by
  simp only [Bool.not_eq_true', pyStrLt] at h1 h2 ⊢
  by_contra hac
  rw [Bool.not_eq_false] at hac
  rcases pyLt_trichotomy a.quality.data b.quality.data with hab | hab | hab
  · exact absurd hab (by simp [h1])
  · rcases pyLt_trichotomy b.quality.data c.quality.data with hbc | hbc | hbc
    · exact absurd hbc (by simp [h2])
    · rw [hab, hbc, pyLt_irrefl] at hac
      exact absurd hac (by simp)
    · rw [hab] at hac
      exact absurd hac (by simp [h2])
  · rcases pyLt_trichotomy b.quality.data c.quality.data with hbc | hbc | hbc
    · exact absurd hbc (by simp [h2])
    · rw [← hbc] at hac
      rw [pyLt_asymm _ _ hab] at hac
      exact absurd hac (by simp)
    · have hCA := pyLt_trans _ _ _ hbc hab
      rw [pyLt_asymm _ _ hCA] at hac
      exact absurd hac (by simp)

/-- Totality of the record comparison used by `sort_cells`. -/
theorem sortLe_total (a b : Record) :
    ((!(pyStrLt a.quality b.quality)) || (!(pyStrLt b.quality a.quality))) = true := by
  simp only [pyStrLt, Bool.or_eq_true, Bool.not_eq_true']
  by_cases h : pyLt a.quality.data b.quality.data = true
  · exact Or.inr (pyLt_asymm _ _ h)
  · exact Or.inl (by simpa using h)

/-- Elements selected by a predicate under which any two selected elements
compare `le` both ways come out of `mergeSort` in their original order. -/
theorem filter_mergeSort_eq {α : Type} (le : α → α → Bool)
    (htrans : ∀ a b c, le a b → le b c → le a c)
    (htotal : ∀ a b, le a b || le b a)
    (l : List α) (p : α → Bool)
    (hp : ∀ a b, p a → p b → le a b) :
    (l.mergeSort le).filter p = l.filter p := by
  have hsub : List.Sublist (l.filter p) (l.mergeSort le) := by
    apply List.sublist_mergeSort htrans htotal
    · apply List.pairwise_of_forall_mem_list
      intro a ha b hb
      exact hp a b (List.of_mem_filter ha) (List.of_mem_filter hb)
    · exact List.filter_sublist l
  have hsub2 : List.Sublist (l.filter p) ((l.mergeSort le).filter p) := by
    have h2 := hsub.filter p
    rwa [List.filter_eq_self.mpr (fun a ha => List.of_mem_filter ha)] at h2
  have hperm : ((l.mergeSort le).filter p).Perm (l.filter p) :=
    (List.mergeSort_perm l le).filter p
  exact (hsub2.eq_of_length hperm.length_eq.symm).symm

/-- C10 (confirmed): `sort_cells` permutes the records: nothing is added,
removed or modified. -/
theorem c10_sort_perm (cells : List Record) : (sort_cells cells).Perm cells :=
  List.mergeSort_perm cells _

/-- C7 (confirmed): the Quality-descending sort is idempotent, and records
with equal `Quality` strings keep their relative input order. -/
theorem c7_sort_idem_stable (cells : List Record) :
    sort_cells (sort_cells cells) = sort_cells cells ∧
    (∀ q : String, (sort_cells cells).filter (fun r => r.quality == q) =
      cells.filter (fun r => r.quality == q)) := by
  constructor
  · exact List.mergeSort_of_sorted (List.sorted_mergeSort sortLe_trans sortLe_total cells)
  · intro q
    apply filter_mergeSort_eq _ sortLe_trans sortLe_total
    intro a b ha hb
    simp only [beq_iff_eq] at ha hb
    simp [ha, hb, pyStrLt, pyLt_irrefl]

set_option maxRecDepth 8000 in
/-- C8 (confirmed): width-3 right-justified formatting is strictly
monotone on 0..100 under lexicographic string comparison, so on records
whose Quality fields are formatted percentages the string sort coincides
with the stable numeric-descending sort. -/
theorem c8_lex_numeric :
    (∀ a b : ℕ, a ≤ 100 → b ≤ 100 → a < b → pyStrLt (fmtQ a) (fmtQ b) = true) ∧
    (∀ (cells : List Record) (pct : Record → ℕ),
      (∀ r ∈ cells, r.quality = fmtQ (pct r) ∧ pct r ≤ 100) →
      sort_cells cells = cells.mergeSort (fun a b => decide (pct b ≤ pct a))) := by
  have key : ∀ a < 101, ∀ b < 101, a < b → pyStrLt (fmtQ a) (fmtQ b) = true := by decide
  have key' : ∀ a b : ℕ, a ≤ 100 → b ≤ 100 → a < b → pyStrLt (fmtQ a) (fmtQ b) = true := by
    intro a b ha hb hab
    exact key a (by omega) b (by omega) hab
  have lt_iff : ∀ x y : ℕ, x ≤ 100 → y ≤ 100 →
      (pyStrLt (fmtQ x) (fmtQ y) = true ↔ x < y) := by
    intro x y hx hy
    constructor
    · intro h
      by_contra hc
      push_neg at hc
      rcases Nat.eq_or_lt_of_le hc with rfl | hlt
      · rw [pyStrLt, pyLt_irrefl] at h
        exact absurd h (by simp)
      · rw [pyStrLt, pyLt_asymm _ _ (key' y x hy hx hlt)] at h
        exact absurd h (by simp)
    · exact key' x y hx hy
  refine ⟨key', ?_⟩
  intro cells pct hc
  unfold sort_cells
  have hl : ∀ a ∈ cells, ∀ b ∈ cells,
      (fun x y : Record => !(pyStrLt x.quality y.quality)) a b =
      (fun x y : Record => decide (pct y ≤ pct x)) (id a) (id b) := by
    intro a ha b hb
    obtain ⟨hqa, hpa⟩ := hc a ha
    obtain ⟨hqb, hpb⟩ := hc b hb
    simp only [id]
    rw [hqa, hqb]
    rcases Nat.lt_or_ge (pct a) (pct b) with h | h
    · rw [key' _ _ hpa hpb h]
      simp [Nat.not_le.mpr h]
    · have hlt : pyStrLt (fmtQ (pct a)) (fmtQ (pct b)) = false := by
        rw [← Bool.not_eq_true]
        intro hcon
        exact absurd ((lt_iff _ _ hpa hpb).mp hcon) (Nat.not_lt.mpr h)
      rw [hlt]
      simp [h]
  have hmap := @List.map_mergeSort Record Record
    (fun x y : Record => !(pyStrLt x.quality y.quality))
    (fun x y : Record => decide (pct y ≤ pct x)) id cells hl
  simpa using hmap

/-- C8 witness: the single-digit corner case 5 % against 50 %, and a
two-record list sorted identically by string and by number. -/
theorem c8_lex_numeric_witness :
    pyStrLt (fmtQ 5) (fmtQ 50) = true ∧
    sort_cells [⟨"a", fmtQ 5, none, "Open", none, "s"⟩, ⟨"b", fmtQ 50, none, "Open", none, "s"⟩] =
      [⟨"a", fmtQ 5, none, "Open", none, "s"⟩,
        ⟨"b", fmtQ 50, none, "Open", none, "s"⟩].mergeSort
        (fun a b => decide ((if b.name = "a" then 5 else 50) ≤ if a.name = "a" then 5 else 50)) :=
  ⟨c8_lex_numeric.1 5 50 (by omega) (by omega) (by omega),
   c8_lex_numeric.2 _ (fun r => if r.name = "a" then 5 else 50) (by decide)⟩

end Iwlist
